import Mathlib

/-!
Shallow embedding of `src/data-extraction-script.py` (AttendanceScript).

Dates are modelled as their `YYYY-MM-DD` strings (the script only ever
compares dates for equality and renders them with `strftime('%Y-%m-%d')`).
Python `dict`s with insertion order are modelled as association lists,
Python `set`s as `Finset String`.  Machine floats do not occur: all the
percentage arithmetic is exact, so percentages are modelled as `Rat` and
the `f"{x:.2f}%"` rendering as a single formatting function `fmtPct`
shared by the embedded code and the specification statements.
A Python exception escaping a function is modelled by `Option`/early
return, mirroring where the `try/except` handlers sit in the source.
-/

abbrev Email := String

abbrev Date := String

/-- An `AttendanceMap` models the Python dict `result_dict : date -> {'attendees': set}`
as an insertion-ordered association list from date to attendee set. -/
abbrev AttendanceMap := List (Date × Finset Email)

/-- A `LeaveCalendar` models the dict built by `read_leave_data`. -/
abbrev LeaveCalendar := List (Date × Finset Email)

/-- First-match association-list lookup, the semantics of `result_dict[date]`. -/
def lookupA : AttendanceMap → Date → Option (Finset Email)
  | [], _ => none
  | p :: rest, d => if p.1 = d then some p.2 else lookupA rest d

/-! ## Leave calendar loader (`read_leave_data`, lines 9-33) -/

/-- The value found in the first column of a leave row: a string, an
already-parsed datetime (carried as its date string), or any other value
(`None`, a number, ...). -/
inductive DateCell where
  | str (s : String)
  | dt (d : Date)
  | other
deriving DecidableEq

/-- One row of the leave spreadsheet: `row[0]` and `row[1]`.
`emailCell = none` models an empty / `None` second column. -/
structure LeaveRow where
  dateCell : DateCell
  emailCell : Option String
deriving DecidableEq

/-- Modelled from the spec and source line 18: `datetime.strptime(s, '%Y-%m-%d')`
is a Python library call; it succeeds exactly on well-formed `YYYY-MM-DD`
strings.  We accept ten-character zero-padded dates with a plausible month
and day, and return the string itself as the date; any other string makes
the call raise, modelled as `none`. -/
def parseYMD (s : String) : Option Date :=
  match s.data with
  | [y1, y2, y3, y4, c1, m1, m2, c2, d1, d2] =>
    if y1.isDigit && y2.isDigit && y3.isDigit && y4.isDigit &&
       (c1 == '-') && m1.isDigit && m2.isDigit && (c2 == '-') &&
       d1.isDigit && d2.isDigit then
      let m := (m1.toNat - 48) * 10 + (m2.toNat - 48)
      let d := (d1.toNat - 48) * 10 + (d2.toNat - 48)
      if 1 ≤ m && m ≤ 12 && 1 ≤ d && d ≤ 31 then some s else none
    else none
  | _ => none

/-- Line 24-25: `{email.strip() for email in (row[1] or "").split(",") if email.strip()}`. -/
def splitEmails (emailCell : Option String) : Finset Email :=
  ((((emailCell.getD "").splitOn ",").map String.trim).filter (fun e => e ≠ "")).toFinset

/-- Lines 28-30: `leave_data.setdefault(date, set()).update(email_set)`,
keeping dict insertion order. -/
def addLeave (acc : LeaveCalendar) (d : Date) (s : Finset Email) : LeaveCalendar :=
  match acc with
  | [] => [(d, s)]
  | p :: rest => if p.1 = d then (p.1, p.2 ∪ s) :: rest else p :: addLeave rest d s

/-- The row loop of `read_leave_data` (lines 15-30).  The single
`try/except` wraps the whole loop, so a `strptime` failure on a string
date cell aborts the loop and the partially accumulated dict is returned
(line 33); a date cell of any other type hits the `else: continue`
(line 22) and only skips that row. -/
def procRows : List LeaveRow → LeaveCalendar → LeaveCalendar
  | [], acc => acc
  | r :: rest, acc =>
    match r.dateCell with
    | .str s =>
      match parseYMD s with
      | none => acc
      | some d => procRows rest (addLeave acc d (splitEmails r.emailCell))
    | .dt d => procRows rest (addLeave acc d (splitEmails r.emailCell))
    | .other => procRows rest acc

/-- `read_leave_data` (lines 9-33). `none` models failure to open the
workbook: the `except` hands back the still-empty dict. -/
def read_leave_data (src : Option (List LeaveRow)) : LeaveCalendar :=
  match src with
  | none => []
  | some rows => procRows rows []

/-! ## Output filename generation (`generate_output_filename`, lines 41-49) -/

/-- `meeting_name.replace(" ", "_")` (line 43): the pattern is the single
character `' '`, so the replacement is a character map. -/
def underscoreSpaces (s : String) : String :=
  String.mk (s.data.map (fun c => if c == ' ' then '_' else c))

/-- The candidate name `f'{base}_{count}.xlsx'`. -/
def nameOf (base : String) (k : Nat) : String :=
  base ++ "_" ++ toString k ++ ".xlsx"

/-- The `while os.path.exists(...)` loop of lines 45-48, with the existing
directory contents abstracted as the list `fs` of present filenames.  The
loop always terminates on a finite directory; `fuel` bounds the number of
iterations we unfold. -/
def genLoop (fs : List String) (base : String) : Nat → Nat → String
  | count, 0 => nameOf base count
  | count, fuel + 1 =>
    if nameOf base count ∈ fs then genLoop fs base (count + 1) fuel else nameOf base count

/-- `generate_output_filename` (lines 41-49) over an abstract directory
listing `fs`. -/
def generate_output_filename (fs : List String) (meeting_name : String) : String :=
  let base := "RnD_" ++ underscoreSpaces meeting_name ++ "_Data"
  if base ++ ".xlsx" ∈ fs then genLoop fs base 1 (fs.length + 1) else base ++ ".xlsx"

/-! ## Attendance extraction (`process_excel_files`, lines 95-118) -/

/-- A report spreadsheet: the header row and the data rows, cells being
`Option String` (`none` = an empty cell / non-string value). -/
structure XlsxFile where
  header : List (Option String)
  rows : List (List (Option String))

/-- Line 116: `result_dict.setdefault(folder_date, {'attendees': set()})['attendees'].add(email)`. -/
def addAttendee (res : AttendanceMap) (d : Date) (e : Email) : AttendanceMap :=
  match res with
  | [] => [(d, {e})]
  | p :: rest => if p.1 = d then (p.1, insert e p.2) :: rest else p :: addAttendee rest d e

/-- Lines 112-116: one iteration of the row loop.  `row[email_index]` is
the cell at `email_index`; the email is recorded iff it is a string in
`email_list`. -/
def processRow (email_list : List Email) (d : Date) (i : Nat)
    (res : AttendanceMap) (row : List (Option String)) : AttendanceMap :=
  match row.getD i none with
  | some e => if e ∈ email_list then addAttendee res d e else res
  | none => res

/-- Lines 102-116 for a single file: locate the first header cell equal to
`'Email'` (`header.index('Email') if 'Email' in header else None`); if
absent, log and `continue` (the file contributes nothing); otherwise fold
the row loop. -/
def process_one_file (email_list : List Email) (d : Date) (f : XlsxFile)
    (res : AttendanceMap) : AttendanceMap :=
  match f.header.indexOf? (some "Email") with
  | none => res
  | some i => f.rows.foldl (processRow email_list d i) res

/-- `process_excel_files` (lines 95-118): every `.xlsx` file of one dated
folder, folded into the shared `result_dict`. -/
def process_excel_files (email_list : List Email) (d : Date) (files : List XlsxFile)
    (res : AttendanceMap) : AttendanceMap :=
  files.foldl (fun r f => process_one_file email_list d f r) res

/-- The folder loop of `compile_attendee_data` (lines 58-76), with the
archive extraction, date-range and meeting-name filtering abstracted away:
`folders` is the list of qualifying `(folder_date, files)` pairs in scan
order, processed into an initially empty `result_dict` (line 54). -/
def scanFolders (email_list : List Email) (folders : List (Date × List XlsxFile)) :
    AttendanceMap :=
  folders.foldl (fun r p => process_excel_files email_list p.1 p.2 r) []

/-! ## Leave merge (`compile_attendee_data`, lines 79-84) -/

/-- One iteration of the merge loop: `if date in result_dict:` union
`leave_info['attendees'] ∩ set(email_list)` into that entry.  Absent dates
are untouched (no new keys are created). -/
def mergeOne (res : AttendanceMap) (d : Date) (att : Finset Email)
    (email_list : List Email) : AttendanceMap :=
  res.map (fun p => if p.1 = d then (p.1, p.2 ∪ (att ∩ email_list.toFinset)) else p)

/-- Lines 79-84: fold the merge over `leave_data.items()`. -/
def mergeLeave (res : AttendanceMap) (leave : LeaveCalendar)
    (email_list : List Email) : AttendanceMap :=
  leave.foldl (fun r p => mergeOne r p.1 p.2 email_list) res

/-- The in-memory core of `compile_attendee_data` (lines 52-92): scan the
qualifying folders into a fresh `result_dict`, then merge the leave data.
The surrounding zip extraction and file writes are I/O. -/
def compile_attendee_data (email_list : List Email)
    (folders : List (Date × List XlsxFile)) (leave : LeaveCalendar) : AttendanceMap :=
  mergeLeave (scanFolders email_list folders) leave email_list

/-! ## Report writers (`save_to_excel`, lines 121-138, and
`save_individual_attendee_percentages`, lines 141-174) -/

/-- `f"{x:.2f}"` for the (always nonnegative) percentages produced by the
script: round to hundredths, render with two decimal digits. -/
def fmt2 (x : Rat) : String :=
  let n := (⌊x * 100 + 1 / 2⌋ : Int).toNat
  toString (n / 100) ++ "." ++ (if n % 100 < 10 then "0" else "") ++ toString (n % 100)

/-- `f"{x:.2f}%"`. -/
def fmtPct (x : Rat) : String :=
  fmt2 x ++ "%"

/-- Line 131: `(attendees_count / total_attendees * 100) if total_attendees > 0 else 0`. -/
def perDatePct (count total : Nat) : Rat :=
  if 0 < total then (count : Rat) / (total : Rat) * 100 else 0

/-- Line 132: `", ".join(attendees_list)`.  Python iterates the set in an
unspecified order; we fix the sorted order (no claim depends on it). -/
def joinEmails (s : Finset Email) : String :=
  String.intercalate ", " (s.sort (fun a b => a ≤ b))

/-- Lines 129-132: the per-date output row `[date, joined emails, percentage]`. -/
def dateRow (email_list : List Email) (p : Date × Finset Email) : List String :=
  [p.1, joinEmails p.2, fmtPct (perDatePct p.2.card email_list.length)]

/-- Lines 126-133: `total_attendees_count`, the running sum of the per-date
attendee counts. -/
def totalAttendeesCount (res : AttendanceMap) : Nat :=
  (res.map (fun p => p.2.card)).sum

/-- Line 134: `(total_attendees_count / (len(result_dict) * total_attendees) * 100)
if total_attendees > 0 else 0`.  When the guard passes but
`len(result_dict) * total_attendees = 0` the Python division raises
`ZeroDivisionError`, modelled as `none`. -/
def overallPercentage (res : AttendanceMap) (email_list : List Email) : Option Rat :=
  if 0 < email_list.length then
    if res.length * email_list.length = 0 then none
    else some ((totalAttendeesCount res : Rat) /
      ((res.length * email_list.length : Nat) : Rat) * 100)
  else some 0

/-- `save_to_excel` (lines 121-138), as the sheet it saves: header row,
one row per date in insertion order, a blank row, then the
`Total Percentage` summary row.  `none` models the `ZeroDivisionError` of
line 134 escaping before `output_workbook.save`. -/
def save_to_excel (res : AttendanceMap) (email_list : List Email) :
    Option (List (List String)) :=
  match overallPercentage res email_list with
  | some v =>
    some ((["Date", "Attendee Emails", "Percentage"] :: res.map (dateRow email_list)) ++
      [[], ["Total Percentage", "", fmtPct v]])
  | none => none

/-- Line 160: `attendee_counts[attendee] = attendee_counts.get(attendee, 0) + 1`
on an insertion-ordered dict. -/
def bump (acc : List (Email × Nat)) (e : Email) : List (Email × Nat) :=
  match acc with
  | [] => [(e, 1)]
  | p :: rest => if p.1 = e then (p.1, p.2 + 1) :: rest else p :: bump rest e

/-- First-match lookup in the counts dict. -/
def lk : List (Email × Nat) → Email → Option Nat
  | [], _ => none
  | p :: rest, e => if p.1 = e then some p.2 else lk rest e

/-- Lines 152-160: the counting pass, outer loop over dates in insertion
order, inner loop over that date's attendee set (set order unspecified;
we fix sorted order — the resulting counts do not depend on it). -/
def attendeeCounts (res : AttendanceMap) : List (Email × Nat) :=
  res.foldl (fun acc p => (p.2.sort (fun a b => a ≤ b)).foldl bump acc) []

/-- Line 168: `(count / total_meetings * 100) if total_meetings > 0 else 0`. -/
def indPct (count total : Nat) : Rat :=
  if 0 < total then (count : Rat) / (total : Rat) * 100 else 0

/-- `save_individual_attendee_percentages` (lines 141-174), as the sheet it
saves: header row then one row per distinct attendee in first-seen order. -/
def save_individual_attendee_percentages (res : AttendanceMap) : List (List String) :=
  ["Attendee", "Percentage"] :: (attendeeCounts res).map (fun p => [p.1, fmtPct (indPct p.2 res.length)])

/-! ## General helpers -/

theorem foldl_preserve {α β : Type} (P : α → Prop) (f : α → β → α)
    (hf : ∀ a b, P a → P (f a b)) : ∀ (l : List β) (a : α), P a → P (l.foldl f a)
  | [], _, ha => ha
  | b :: l, a, ha => foldl_preserve P f hf l (f a b) (hf a b ha)

theorem fmt2_zero : fmt2 0 = "0.00" := by
  have h : (⌊(0 : Rat) * 100 + 1 / 2⌋ : Int) = 0 := by norm_num
  simp only [fmt2, h]
  decide

theorem fmtPct_zero : fmtPct 0 = "0.00%" := by
  rw [fmtPct, fmt2_zero]
  decide

/-- Rendering of the per-date percentage, in the form the spec writes it. -/
theorem fmtPct_perDatePct (c n : Nat) :
    fmtPct (perDatePct c n) =
      if 0 < n then fmtPct (100 * (c : Rat) / (n : Rat)) else "0.00%" := by
  unfold perDatePct
  by_cases h : 0 < n
  · rw [if_pos h, if_pos h]
    exact congrArg fmtPct (by ring)
  · rw [if_neg h, if_neg h, fmtPct_zero]

/-- Rendering of the per-individual percentage, in the form the spec writes it. -/
theorem fmtPct_indPct (c n : Nat) :
    fmtPct (indPct c n) =
      if 0 < n then fmtPct (100 * (c : Rat) / (n : Rat)) else "0.00%" := by
  unfold indPct
  by_cases h : 0 < n
  · rw [if_pos h, if_pos h]
    exact congrArg fmtPct (by ring)
  · rw [if_neg h, if_neg h, fmtPct_zero]

/-! ## C8: a file without an `Email` header column contributes nothing -/

theorem indexOf_email_none (f : XlsxFile) (h : some "Email" ∉ f.header) :
    f.header.indexOf? (some "Email") = none :=
  List.indexOf?_eq_none_iff.2 fun _ hx hbe => h (eq_of_beq hbe ▸ hx)

/-- C8: if a report file's header row has no cell equal to `'Email'`,
`process_excel_files` skips the whole file: it contributes nothing to the
AttendanceMap, and the remaining files of the folder are still processed
exactly as if the bad file were absent. -/
theorem missing_email_column_skips_file (email_list : List Email) (d : Date)
    (res : AttendanceMap) (f : XlsxFile) (h : some "Email" ∉ f.header)
    (fs1 fs2 : List XlsxFile) :
    process_one_file email_list d f res = res ∧
    process_excel_files email_list d (fs1 ++ f :: fs2) res =
      process_excel_files email_list d (fs1 ++ fs2) res := by
  have h1 : ∀ r, process_one_file email_list d f r = r := by
    intro r
    unfold process_one_file
    rw [indexOf_email_none f h]
  refine ⟨h1 res, ?_⟩
  unfold process_excel_files
  rw [List.foldl_append, List.foldl_append, List.foldl_cons, h1]

theorem missing_email_column_skips_file_witness :
    process_one_file ["a@x.com"] "2024-01-02"
      ⟨[some "Name"], [[some "a@x.com"]]⟩ [] = [] ∧
    process_excel_files ["a@x.com"] "2024-01-02"
      ([] ++ ⟨[some "Name"], [[some "a@x.com"]]⟩ :: []) [] =
      process_excel_files ["a@x.com"] "2024-01-02" ([] ++ []) [] :=
  missing_email_column_skips_file ["a@x.com"] "2024-01-02" []
    ⟨[some "Name"], [[some "a@x.com"]]⟩ (by decide) [] []

/-! ## C9: output filename collision avoidance -/

theorem genLoop_finds (fs : List String) (base : String) :
    ∀ (fuel count : Nat), (∃ j, count ≤ j ∧ j < count + fuel ∧ nameOf base j ∉ fs) →
    ∃ n, genLoop fs base count fuel = nameOf base n ∧ count ≤ n ∧ nameOf base n ∉ fs ∧
      ∀ k, count ≤ k → k < n → nameOf base k ∈ fs := by
  intro fuel
  induction fuel with
  | zero =>
    intro count hex
    obtain ⟨j, hj1, hj2, -⟩ := hex
    omega
  | succ fuel ih =>
    intro count hex
    by_cases hc : nameOf base count ∈ fs
    · have hex2 : ∃ j, count + 1 ≤ j ∧ j < (count + 1) + fuel ∧ nameOf base j ∉ fs := by
        obtain ⟨j, hj1, hj2, hj3⟩ := hex
        refine ⟨j, ?_, by omega, hj3⟩
        rcases Nat.eq_or_lt_of_le hj1 with h | h
        · exact absurd hc (h ▸ hj3)
        · omega
      obtain ⟨n, hn1, hn2, hn3, hn4⟩ := ih (count + 1) hex2
      refine ⟨n, ?_, by omega, hn3, ?_⟩
      · simp only [genLoop]
        rw [if_pos hc]
        exact hn1
      · intro k hk1 hk2
        rcases Nat.eq_or_lt_of_le hk1 with h | h
        · exact h ▸ hc
        · exact hn4 k h hk2
    · refine ⟨count, ?_, Nat.le_refl _, hc, ?_⟩
      · simp only [genLoop]
        rw [if_neg hc]
      · intro k hk1 hk2
        omega

/-- C9: `generate_output_filename` returns `<base>.xlsx` when that name is
free; otherwise it returns `<base>_<n>.xlsx` for the smallest `n ≥ 1` whose
name is free (witnessed under the assumption, always true of a finite
directory, that some candidate within the unfolded fuel is free); in
particular with `RnD_Standup_Data.xlsx` present, meeting `Standup` yields
`RnD_Standup_Data_1.xlsx`. -/
theorem output_filename_collision_avoidance (fs : List String) (meeting_name : String)
    (base : String) (hb : base = "RnD_" ++ underscoreSpaces meeting_name ++ "_Data") :
    (base ++ ".xlsx" ∉ fs → generate_output_filename fs meeting_name = base ++ ".xlsx") ∧
    (base ++ ".xlsx" ∈ fs →
      (∃ j, 1 ≤ j ∧ j < 1 + (fs.length + 1) ∧ nameOf base j ∉ fs) →
      ∃ n, generate_output_filename fs meeting_name = nameOf base n ∧ 1 ≤ n ∧
        nameOf base n ∉ fs ∧ ∀ k, 1 ≤ k → k < n → nameOf base k ∈ fs) ∧
    generate_output_filename ["RnD_Standup_Data.xlsx"] "Standup" = "RnD_Standup_Data_1.xlsx" := by
  subst hb
  refine ⟨?_, ?_, by decide⟩
  · intro h
    simp only [generate_output_filename]
    rw [if_neg h]
  · intro h hex
    simp only [generate_output_filename]
    rw [if_pos h]
    exact genLoop_finds fs _ (fs.length + 1) 1 hex

theorem output_filename_collision_avoidance_witness :
    generate_output_filename ["RnD_Standup_Data.xlsx"] "Standup" = "RnD_Standup_Data_1.xlsx" :=
  (output_filename_collision_avoidance ["RnD_Standup_Data.xlsx"] "Standup"
    "RnD_Standup_Data" (by decide)).2.2

/-! ## C2: failure policy of `read_leave_data` -/

/-- C2 counterexample: a row whose date string fails to parse does not
merely lose that row — the exception is caught outside the loop, so the
following well-formed row (`2024-01-02, b@x.com`) is also dropped and the
returned LeaveCalendar is empty. -/
theorem leave_row_error_not_isolated :
    read_leave_data (some [⟨.str "not-a-date", some "a@x.com"⟩,
      ⟨.str "2024-01-02", some "b@x.com"⟩]) = [] := by
  decide

/-- C2 amended: the `try/except` of `read_leave_data` wraps the whole row
loop.  Total failure to open the source still yields an empty
LeaveCalendar, and a row whose date cell is neither a string nor a
datetime is skipped individually with the remaining rows processed; but a
date string that fails to parse aborts the loop, returning only the rows
accumulated before it. -/
theorem leave_failure_policy (r : LeaveRow) (rest : List LeaveRow) (acc : LeaveCalendar) :
    (read_leave_data none = []) ∧
    (r.dateCell = DateCell.other → procRows (r :: rest) acc = procRows rest acc) ∧
    (∀ s, r.dateCell = DateCell.str s → parseYMD s = none → procRows (r :: rest) acc = acc) := by
  refine ⟨rfl, ?_, ?_⟩
  · intro h
    simp only [procRows, h]
  · intro s hs hp
    simp only [procRows, hs, hp]

theorem leave_failure_policy_witness :
    procRows [⟨DateCell.str "not-a-date", some "a@x.com"⟩,
      ⟨DateCell.str "2024-01-02", some "b@x.com"⟩] [] = [] :=
  (leave_failure_policy ⟨DateCell.str "not-a-date", some "a@x.com"⟩
    [⟨DateCell.str "2024-01-02", some "b@x.com"⟩] []).2.2 "not-a-date" rfl (by decide)

/-! ## C1: the `Total Percentage` summary row -/

/-- C1 counterexample: with a nonempty roster and an empty AttendanceMap,
line 134 divides by `len(result_dict) * total_attendees = 0`: the guard
`if total_attendees > 0` does not cover this case, a `ZeroDivisionError`
escapes and no sheet is written — the summary row does not read `0.00%`. -/
theorem total_percentage_division_unguarded :
    save_to_excel [] ["a@x.com"] = none := by
  decide

/-- C1 amended: the summary row's value is
`(sum of per-date counts) / (number of dates * roster size) * 100`,
two decimals with a trailing `%`, and the division is guarded only by
`roster size > 0`: an empty roster yields `0.00%` (even with zero dates),
but a nonempty roster with an empty AttendanceMap divides by zero and
`save_to_excel` raises instead of writing the row. -/
theorem total_percentage_row (res : AttendanceMap) (email_list : List Email) :
    (email_list = [] → ∃ rows, save_to_excel res email_list = some rows ∧
      rows.getLast? = some ["Total Percentage", "", "0.00%"]) ∧
    (email_list ≠ [] → res ≠ [] → ∃ rows, save_to_excel res email_list = some rows ∧
      rows.getLast? = some ["Total Percentage", "",
        fmtPct ((totalAttendeesCount res : Rat) /
          ((res.length * email_list.length : Nat) : Rat) * 100)]) ∧
    (email_list ≠ [] → res = [] → save_to_excel res email_list = none) := by
  have hlast : ∀ (l : List (List String)) (t : List String),
      (l ++ [[], t]).getLast? = some t := by
    intro l t
    rw [show (l ++ [[], t]) = (l ++ [[]]) ++ [t] by simp]
    exact List.getLast?_concat _
  refine ⟨?_, ?_, ?_⟩
  · intro h
    subst h
    refine ⟨(["Date", "Attendee Emails", "Percentage"] :: res.map (dateRow [])) ++
      [[], ["Total Percentage", "", fmtPct 0]], ?_, ?_⟩
    · simp [save_to_excel, overallPercentage]
    · rw [hlast, fmtPct_zero]
  · intro hel hres
    have h1 : 0 < email_list.length := List.length_pos.mpr hel
    have h3 : ¬ (res.length * email_list.length = 0) :=
      Nat.mul_ne_zero (fun h0 => hres (List.length_eq_zero.mp h0)) (by omega)
    have hov : overallPercentage res email_list =
        some ((totalAttendeesCount res : Rat) /
          ((res.length * email_list.length : Nat) : Rat) * 100) := by
      unfold overallPercentage
      rw [if_pos h1, if_neg h3]
    refine ⟨(["Date", "Attendee Emails", "Percentage"] :: res.map (dateRow email_list)) ++
      [[], ["Total Percentage", "", fmtPct ((totalAttendeesCount res : Rat) /
        ((res.length * email_list.length : Nat) : Rat) * 100)]], ?_, hlast _ _⟩
    unfold save_to_excel
    rw [hov]
  · intro hel hres
    subst hres
    have h1 : 0 < email_list.length := List.length_pos.mpr hel
    unfold save_to_excel overallPercentage
    rw [if_pos h1]
    simp

theorem total_percentage_row_witness :
    ∃ rows, save_to_excel [("2024-01-02", {"a@x.com"})] ["a@x.com"] = some rows ∧
      rows.getLast? = some ["Total Percentage", "",
        fmtPct ((totalAttendeesCount [("2024-01-02", {"a@x.com"})] : Rat) /
          ((([("2024-01-02", ({"a@x.com"} : Finset Email))] : AttendanceMap).length *
            (["a@x.com"] : List Email).length : Nat) : Rat) * 100)] :=
  (total_percentage_row [("2024-01-02", {"a@x.com"})] ["a@x.com"]).2.1
    (by decide) (by decide)

/-! ## C7: set semantics make duplicate rows idempotent -/

theorem addAttendee_idem (res : AttendanceMap) (d : Date) (e : Email) :
    addAttendee (addAttendee res d e) d e = addAttendee res d e := by
  induction res with
  | nil => simp [addAttendee, Finset.insert_eq_self]
  | cons p rest ih =>
    by_cases hp : p.1 = d
    · simp [addAttendee, hp, Finset.insert_idem]
    · simp [addAttendee, hp, ih]

theorem foldl_replicate_idem {α β : Type} (f : α → β → α) (b : β)
    (hf : ∀ a, f (f a b) b = f a b) :
    ∀ (n : Nat) (a : α), 1 ≤ n → (List.replicate n b).foldl f a = f a b := by
  intro n
  induction n with
  | zero => intro a h; omega
  | succ m ih =>
    intro a _
    rw [List.replicate_succ, List.foldl_cons]
    rcases Nat.eq_zero_or_pos m with h0 | h0
    · subst h0
      simp
    · rw [ih (f a b) h0, hf]

/-- A report file whose header is `['Email']` and whose `n` rows each list
the single email `e`. -/
def fileRepeating (e : Email) (n : Nat) : XlsxFile :=
  ⟨[some "Email"], List.replicate n [some e]⟩

theorem process_fileRepeating (email_list : List Email) (d : Date) (e : Email)
    (he : e ∈ email_list) :
    ∀ (m : Nat), 1 ≤ m → ∀ (r : AttendanceMap),
    process_one_file email_list d (fileRepeating e m) r = addAttendee r d e := by
  have hidx : ([some "Email"] : List (Option String)).indexOf? (some "Email") = some 0 := by
    decide
  have hrow : ∀ (r : AttendanceMap),
      processRow email_list d 0 r [some e] = addAttendee r d e := by
    intro r
    simp [processRow, he]
  intro m hm r
  simp only [process_one_file, fileRepeating, hidx]
  rw [foldl_replicate_idem (processRow email_list d 0) [some e]
    (fun a => by rw [hrow, hrow]; exact addAttendee_idem a d e) m r hm, hrow]

/-- C7: recording attendance is idempotent under duplicate rows: a file
listing a roster email `e` in `n ≥ 1` rows produces exactly the same
AttendanceMap as a file listing it once, and processing a second file for
the same date listing `e` again changes nothing. -/
theorem attendance_idempotent (email_list : List Email) (d : Date) (e : Email)
    (res : AttendanceMap) (he : e ∈ email_list) (n : Nat) (hn : 1 ≤ n) :
    process_one_file email_list d (fileRepeating e n) res =
      process_one_file email_list d (fileRepeating e 1) res ∧
    process_one_file email_list d (fileRepeating e 1)
        (process_one_file email_list d (fileRepeating e 1) res) =
      process_one_file email_list d (fileRepeating e 1) res := by
  constructor
  · rw [process_fileRepeating email_list d e he n hn res,
      process_fileRepeating email_list d e he 1 (Nat.le_refl 1) res]
  · rw [process_fileRepeating email_list d e he 1 (Nat.le_refl 1) res,
      process_fileRepeating email_list d e he 1 (Nat.le_refl 1) (addAttendee res d e),
      addAttendee_idem]

theorem attendance_idempotent_witness :
    process_one_file ["a@x.com"] "2024-01-02" (fileRepeating "a@x.com" 3) [] =
      process_one_file ["a@x.com"] "2024-01-02" (fileRepeating "a@x.com" 1) [] ∧
    process_one_file ["a@x.com"] "2024-01-02" (fileRepeating "a@x.com" 1)
        (process_one_file ["a@x.com"] "2024-01-02" (fileRepeating "a@x.com" 1) []) =
      process_one_file ["a@x.com"] "2024-01-02" (fileRepeating "a@x.com" 1) [] :=
  attendance_idempotent ["a@x.com"] "2024-01-02" "a@x.com" [] (by decide) 3 (by decide)

/-! ## C4: the leave merge is monotonic and creates no entries -/

theorem lookupA_mergeOne (res : AttendanceMap) (d0 : Date) (att : Finset Email)
    (email_list : List Email) (d : Date) :
    lookupA (mergeOne res d0 att email_list) d =
      (lookupA res d).map
        (fun a => if d = d0 then a ∪ (att ∩ email_list.toFinset) else a) := by
  induction res with
  | nil => rfl
  | cons p rest ih =>
    simp only [mergeOne, List.map_cons] at ih ⊢
    by_cases hd0 : p.1 = d0
    · rw [if_pos hd0]
      by_cases hp : p.1 = d
      · have hdd : d = d0 := by rw [← hp, hd0]
        simp [lookupA, hp, hdd]
      · simp only [lookupA, hp, if_false, if_neg hp]
        exact ih
    · rw [if_neg hd0]
      by_cases hp : p.1 = d
      · have hdd : ¬ (d = d0) := fun h => hd0 (by rw [hp, h])
        simp [lookupA, hp, hdd]
      · simp only [lookupA, if_neg hp]
        exact ih

theorem mergeLeave_lookup (leave : LeaveCalendar) :
    ∀ (res : AttendanceMap) (email_list : List Email) (d : Date),
    (lookupA res d = none → lookupA (mergeLeave res leave email_list) d = none) ∧
    (∀ a, lookupA res d = some a →
      ∃ b, lookupA (mergeLeave res leave email_list) d = some b ∧ a ⊆ b) := by
  induction leave with
  | nil =>
    intro res el d
    exact ⟨fun h => h, fun a ha => ⟨a, ha, Finset.Subset.refl a⟩⟩
  | cons q t ih =>
    intro res el d
    have hstep := lookupA_mergeOne res q.1 q.2 el d
    constructor
    · intro h
      have h1 : lookupA (mergeOne res q.1 q.2 el) d = none := by
        rw [hstep, h]
        rfl
      have h2 := (ih (mergeOne res q.1 q.2 el) el d).1 h1
      simpa only [mergeLeave, List.foldl_cons] using h2
    · intro a ha
      have h1 : lookupA (mergeOne res q.1 q.2 el) d =
          some (if d = q.1 then a ∪ (q.2 ∩ el.toFinset) else a) := by
        rw [hstep, ha]
        rfl
      obtain ⟨b, hb1, hb2⟩ := (ih (mergeOne res q.1 q.2 el) el d).2 _ h1
      refine ⟨b, ?_, ?_⟩
      · simpa only [mergeLeave, List.foldl_cons] using hb1
      · refine Finset.Subset.trans ?_ hb2
        by_cases hdq : d = q.1
        · rw [if_pos hdq]
          exact Finset.subset_union_left
        · rw [if_neg hdq]

/-- C4: the leave merge is monotonic: for every date already present in
the AttendanceMap the attendee set after `mergeLeave` is a superset of the
set before it, and every date absent before the merge is still absent
after it — the merge creates no new date entries. -/
theorem leave_merge_monotonic (res : AttendanceMap) (leave : LeaveCalendar)
    (email_list : List Email) :
    (∀ d, lookupA res d = none → lookupA (mergeLeave res leave email_list) d = none) ∧
    (∀ d a, lookupA res d = some a →
      ∃ b, lookupA (mergeLeave res leave email_list) d = some b ∧ a ⊆ b) :=
  ⟨fun d => (mergeLeave_lookup leave res email_list d).1,
   fun d a => (mergeLeave_lookup leave res email_list d).2 a⟩

theorem leave_merge_monotonic_witness :
    lookupA (mergeLeave [("2024-01-03", {"a@x.com"})] [("2024-01-05", {"b@x.com"})]
      ["a@x.com", "b@x.com"]) "2024-01-05" = none ∧
    ∃ b, lookupA (mergeLeave [("2024-01-03", {"a@x.com"})] [("2024-01-03", {"b@x.com"})]
      ["a@x.com", "b@x.com"]) "2024-01-03" = some b ∧ ({"a@x.com"} : Finset Email) ⊆ b :=
  ⟨(leave_merge_monotonic [("2024-01-03", {"a@x.com"})] [("2024-01-05", {"b@x.com"})]
      ["a@x.com", "b@x.com"]).1 "2024-01-05" (by decide),
   (leave_merge_monotonic [("2024-01-03", {"a@x.com"})] [("2024-01-03", {"b@x.com"})]
      ["a@x.com", "b@x.com"]).2 "2024-01-03" {"a@x.com"} (by decide)⟩

/-! ## C3: every recorded attendee is a roster member -/

/-- Every attendee set in the map draws only from `email_list`. -/
def RosterOnly (email_list : List Email) (res : AttendanceMap) : Prop :=
  ∀ p ∈ res, ∀ e ∈ p.2, e ∈ email_list

theorem rosterOnly_nil (email_list : List Email) : RosterOnly email_list [] :=
  fun p hp => absurd hp (List.not_mem_nil p)

theorem rosterOnly_addAttendee (email_list : List Email) (res : AttendanceMap)
    (d : Date) (e : Email) (he : e ∈ email_list) (h : RosterOnly email_list res) :
    RosterOnly email_list (addAttendee res d e) := by
  induction res with
  | nil =>
    intro p hp e2 he2
    rw [addAttendee, List.mem_singleton] at hp
    subst hp
    rw [Finset.mem_singleton] at he2
    subst he2
    exact he
  | cons q rest ih =>
    have hq := h q (List.mem_cons_self q rest)
    have hrest : RosterOnly email_list rest :=
      fun p hp => h p (List.mem_cons_of_mem q hp)
    intro p hp e2 he2
    unfold addAttendee at hp
    by_cases hqd : q.1 = d
    · rw [if_pos hqd] at hp
      rcases List.mem_cons.1 hp with h1 | h1
      · subst h1
        rcases Finset.mem_insert.1 he2 with h2 | h2
        · exact h2 ▸ he
        · exact hq e2 h2
      · exact hrest p h1 e2 he2
    · rw [if_neg hqd] at hp
      rcases List.mem_cons.1 hp with h1 | h1
      · exact hq e2 (h1 ▸ he2)
      · exact ih hrest p h1 e2 he2

theorem rosterOnly_processRow (email_list : List Email) (d : Date) (i : Nat)
    (res : AttendanceMap) (row : List (Option String)) (h : RosterOnly email_list res) :
    RosterOnly email_list (processRow email_list d i res row) := by
  unfold processRow
  split
  · split
    · exact rosterOnly_addAttendee email_list res d _ (by assumption) h
    · exact h
  · exact h

theorem rosterOnly_process_one_file (email_list : List Email) (d : Date) (f : XlsxFile)
    (res : AttendanceMap) (h : RosterOnly email_list res) :
    RosterOnly email_list (process_one_file email_list d f res) := by
  unfold process_one_file
  split
  · exact h
  · exact foldl_preserve (RosterOnly email_list) _
      (fun a row ha => rosterOnly_processRow email_list d _ a row ha) f.rows res h

theorem rosterOnly_scan (email_list : List Email)
    (folders : List (Date × List XlsxFile)) :
    RosterOnly email_list (scanFolders email_list folders) :=
  foldl_preserve (RosterOnly email_list) _
    (fun r p hr => foldl_preserve (RosterOnly email_list) _
      (fun a f ha => rosterOnly_process_one_file email_list p.1 f a ha) p.2 r hr)
    folders [] (rosterOnly_nil email_list)

theorem rosterOnly_mergeOne (email_list : List Email) (res : AttendanceMap)
    (d : Date) (att : Finset Email) (h : RosterOnly email_list res) :
    RosterOnly email_list (mergeOne res d att email_list) := by
  intro p hp e he
  unfold mergeOne at hp
  obtain ⟨q, hq, hpq⟩ := List.mem_map.1 hp
  by_cases hqd : q.1 = d
  · rw [if_pos hqd] at hpq
    subst hpq
    rcases Finset.mem_union.1 he with h1 | h1
    · exact h q hq e h1
    · exact List.mem_toFinset.1 (Finset.mem_inter.1 h1).2
  · rw [if_neg hqd] at hpq
    subst hpq
    exact h q hq e he

theorem rosterOnly_compile (email_list : List Email)
    (folders : List (Date × List XlsxFile)) (leave : LeaveCalendar) :
    RosterOnly email_list (compile_attendee_data email_list folders leave) := by
  unfold compile_attendee_data mergeLeave
  exact foldl_preserve (RosterOnly email_list) _
    (fun r q hr => rosterOnly_mergeOne email_list r q.1 q.2 hr) leave
    (scanFolders email_list folders) (rosterOnly_scan email_list folders)

/-- C3: after the scan and the leave merge, every email recorded under any
date of the compiled AttendanceMap is a member of the roster: the
extractor only adds emails that pass the `email in email_list` check, and
the merge only unions `leave ∩ set(email_list)`. -/
theorem attendees_subset_roster (email_list : List Email)
    (folders : List (Date × List XlsxFile)) (leave : LeaveCalendar) :
    ∀ p ∈ compile_attendee_data email_list folders leave, ∀ e ∈ p.2, e ∈ email_list :=
  rosterOnly_compile email_list folders leave

theorem attendees_subset_roster_witness :
    ("a@x.com" : Email) ∈ (["a@x.com", "b@x.com"] : List Email) :=
  attendees_subset_roster ["a@x.com", "b@x.com"]
    [("2024-01-02", [⟨[some "Email"], [[some "a@x.com"]]⟩])]
    [("2024-01-02", {"b@y.com"})]
    ("2024-01-02", {"a@x.com"}) (by decide) "a@x.com" (by decide)

/-! ## C5: the per-date percentage -/

/-- C5: for every date of the final AttendanceMap, `save_to_excel` writes
(and successfully saves) a row whose percentage column is
`100 * |A(d)| / |R|` rendered to two decimals with a trailing `%` when the
roster is nonempty, and `0.00%` when the roster is empty. -/
theorem per_date_percentage (email_list : List Email) (res : AttendanceMap)
    (p : Date × Finset Email) (hp : p ∈ res) :
    ∃ rows, save_to_excel res email_list = some rows ∧
      [p.1, joinEmails p.2,
        if 0 < email_list.length then
          fmtPct (100 * (p.2.card : Rat) / (email_list.length : Rat))
        else "0.00%"] ∈ rows := by
  have hres : res ≠ [] := List.ne_nil_of_mem hp
  have hrow : dateRow email_list p =
      [p.1, joinEmails p.2,
        if 0 < email_list.length then
          fmtPct (100 * (p.2.card : Rat) / (email_list.length : Rat))
        else "0.00%"] := by
    unfold dateRow
    rw [fmtPct_perDatePct]
  obtain ⟨v, hv⟩ : ∃ v, overallPercentage res email_list = some v := by
    unfold overallPercentage
    by_cases h : 0 < email_list.length
    · rw [if_pos h]
      have h3 : ¬ (res.length * email_list.length = 0) :=
        Nat.mul_ne_zero (fun h0 => hres (List.length_eq_zero.mp h0)) (by omega)
      rw [if_neg h3]
      exact ⟨_, rfl⟩
    · rw [if_neg h]
      exact ⟨0, rfl⟩
  refine ⟨(["Date", "Attendee Emails", "Percentage"] :: res.map (dateRow email_list)) ++
    [[], ["Total Percentage", "", fmtPct v]], ?_, ?_⟩
  · unfold save_to_excel
    rw [hv]
  · rw [← hrow]
    exact List.mem_append_left _
      (List.mem_cons_of_mem _ (List.mem_map_of_mem (dateRow email_list) hp))

theorem per_date_percentage_witness :
    ∃ rows, save_to_excel [("2024-01-02", {"a@x.com"})] ["a@x.com"] = some rows ∧
      ["2024-01-02", joinEmails {"a@x.com"},
        if 0 < (["a@x.com"] : List Email).length then
          fmtPct (100 * ((({"a@x.com"} : Finset Email)).card : Rat) /
            ((["a@x.com"] : List Email).length : Rat))
        else "0.00%"] ∈ rows :=
  per_date_percentage ["a@x.com"] [("2024-01-02", {"a@x.com"})]
    ("2024-01-02", {"a@x.com"}) (by decide)

/-! ## C6: the per-individual percentage -/

theorem lk_bump (acc : List (Email × Nat)) (a e : Email) :
    lk (bump acc a) e = if e = a then some ((lk acc e).getD 0 + 1) else lk acc e := by
  induction acc with
  | nil =>
    by_cases h : e = a
    · subst h
      simp [bump, lk]
    · simp [bump, lk, h, Ne.symm h]
  | cons p rest ih =>
    by_cases hpa : p.1 = a
    · by_cases hpe : p.1 = e
      · have hea : e = a := by rw [← hpe, hpa]
        simp [bump, lk, hpa, hpe, hea]
      · have hea : ¬ (e = a) := fun h => hpe (by rw [hpa, h])
        have hae : ¬ (a = e) := fun h => hea h.symm
        simp [bump, lk, hpa, hpe, hea, hae]
    · by_cases hpe : p.1 = e
      · have hea : ¬ (e = a) := fun h => hpa (by rw [hpe, h])
        simp [bump, lk, hpa, hpe, hea]
      · simp [bump, lk, hpa, hpe, ih]

theorem lk_foldl_bump (L : List Email) :
    ∀ (acc : List (Email × Nat)) (e : Email),
    lk (L.foldl bump acc) e =
      if e ∈ L then some ((lk acc e).getD 0 + L.count e) else lk acc e := by
  induction L with
  | nil =>
    intro acc e
    simp
  | cons a t ih =>
    intro acc e
    rw [List.foldl_cons, ih]
    by_cases hea : e = a
    · subst hea
      rw [if_pos (List.mem_cons_self e t), List.count_cons_self]
      by_cases hmem : e ∈ t
      · rw [if_pos hmem, lk_bump, if_pos rfl]
        simp
        omega
      · rw [if_neg hmem, lk_bump, if_pos rfl, List.count_eq_zero_of_not_mem hmem]
    · have hmemc : (e ∈ a :: t) ↔ (e ∈ t) := by
        rw [List.mem_cons]
        exact ⟨fun h => h.resolve_left hea, Or.inr⟩
      rw [List.count_cons_of_ne hea]
      by_cases hmem : e ∈ t
      · rw [if_pos hmem, if_pos (hmemc.2 hmem), lk_bump, if_neg hea]
      · rw [if_neg hmem, if_neg (fun h => hmem (hmemc.1 h)), lk_bump, if_neg hea]

/-- The inner-then-outer counting loop of lines 156-160 is the fold of
`bump` over the concatenation of the per-date attendee lists. -/
theorem attendeeCounts_eq_foldl (res : AttendanceMap) :
    ∀ acc, res.foldl (fun a p => (p.2.sort (fun x y => x ≤ y)).foldl bump a) acc =
      (res.flatMap (fun p => p.2.sort (fun x y => x ≤ y))).foldl bump acc := by
  induction res with
  | nil =>
    intro acc
    rfl
  | cons p t ih =>
    intro acc
    rw [List.foldl_cons, ih, List.flatMap_cons, List.foldl_append]

theorem count_allAttendees (res : AttendanceMap) (e : Email) :
    (res.flatMap (fun p => p.2.sort (fun x y => x ≤ y))).count e =
      res.countP (fun p => decide (e ∈ p.2)) := by
  induction res with
  | nil => rfl
  | cons p t ih =>
    rw [List.flatMap_cons, List.count_append, ih, List.countP_cons]
    by_cases h : e ∈ p.2
    · rw [List.count_eq_one_of_mem (Finset.sort_nodup _ _) ((Finset.mem_sort _).2 h)]
      simp [h]
      omega
    · rw [List.count_eq_zero_of_not_mem (fun hc => h ((Finset.mem_sort _).1 hc))]
      simp [h]

theorem mem_allAttendees (res : AttendanceMap) (e : Email) :
    e ∈ res.flatMap (fun p => p.2.sort (fun x y => x ≤ y)) ↔ ∃ p ∈ res, e ∈ p.2 := by
  simp [List.mem_flatMap, Finset.mem_sort]

theorem lk_mem (acc : List (Email × Nat)) (e : Email) (c : Nat)
    (h : lk acc e = some c) : (e, c) ∈ acc := by
  induction acc with
  | nil => exact absurd h (by simp [lk])
  | cons p rest ih =>
    obtain ⟨p1, p2⟩ := p
    unfold lk at h
    by_cases hp : p1 = e
    · simp only [hp, if_pos] at h
      injection h with h
      subst hp
      subst h
      exact List.mem_cons_self _ _
    · simp only [hp, if_false, if_neg hp] at h
      exact List.mem_cons_of_mem _ (ih h)

theorem bump_fst (acc : List (Email × Nat)) (e : Email) :
    (bump acc e).map Prod.fst =
      if e ∈ acc.map Prod.fst then acc.map Prod.fst else acc.map Prod.fst ++ [e] := by
  induction acc with
  | nil => simp [bump]
  | cons p rest ih =>
    by_cases hp : p.1 = e
    · simp [bump, hp]
    · simp only [bump, if_neg hp, List.map_cons, ih]
      have : (e ∈ p.1 :: rest.map Prod.fst) ↔ (e ∈ rest.map Prod.fst) := by
        rw [List.mem_cons]
        exact ⟨fun h => h.resolve_left (fun h1 => hp h1.symm), Or.inr⟩
      by_cases hm : e ∈ rest.map Prod.fst
      · rw [if_pos hm, if_pos (this.2 hm)]
      · rw [if_neg hm, if_neg (fun h => hm (this.1 h))]
        simp

theorem bump_nodup (acc : List (Email × Nat)) (e : Email)
    (h : (acc.map Prod.fst).Nodup) : ((bump acc e).map Prod.fst).Nodup := by
  rw [bump_fst]
  by_cases hm : e ∈ acc.map Prod.fst
  · rw [if_pos hm]
    exact h
  · rw [if_neg hm]
    simp [List.nodup_append, h, hm]

theorem attendeeCounts_nodup_fst (res : AttendanceMap) :
    ((attendeeCounts res).map Prod.fst).Nodup := by
  unfold attendeeCounts
  rw [attendeeCounts_eq_foldl]
  exact foldl_preserve (fun a => (a.map Prod.fst).Nodup) bump
    (fun a b ha => bump_nodup a b ha) _ [] (by simp)

theorem mem_lk (acc : List (Email × Nat)) (hnd : (acc.map Prod.fst).Nodup)
    (e : Email) (c : Nat) (h : (e, c) ∈ acc) : lk acc e = some c := by
  induction acc with
  | nil => cases h
  | cons p rest ih =>
    rw [List.map_cons, List.nodup_cons] at hnd
    rcases List.mem_cons.1 h with h1 | h1
    · rw [← h1]
      unfold lk
      rw [if_pos rfl]
    · have hp : p.1 ≠ e := by
        intro hpe
        exact hnd.1 (hpe ▸ List.mem_map_of_mem Prod.fst h1)
      unfold lk
      rw [if_neg hp]
      exact ih hnd.2 h1

/-- The counts dict after the counting pass: each attendee that appears
somewhere maps to the number of dates whose set contains them. -/
theorem attendeeCounts_lk (res : AttendanceMap) (e : Email) :
    lk (attendeeCounts res) e =
      if ∃ p ∈ res, e ∈ p.2 then some (res.countP (fun p => decide (e ∈ p.2)))
      else none := by
  unfold attendeeCounts
  rw [attendeeCounts_eq_foldl, lk_foldl_bump]
  by_cases h : e ∈ res.flatMap (fun p => p.2.sort (fun x y => x ≤ y))
  · rw [if_pos h, if_pos ((mem_allAttendees res e).1 h), count_allAttendees]
    simp [lk]
  · rw [if_neg h, if_neg (fun hex => h ((mem_allAttendees res e).2 hex))]
    rfl

/-- C6: every attendee `e` appearing in at least one date of the final
AttendanceMap gets a row in the individual sheet whose percentage is
`100 * (number of dates containing e) / (total number of dates)`, two
decimals with a trailing `%` (and the `total_meetings > 0` guard makes the
zero-date case render `0.00%`). -/
theorem individual_percentage (res : AttendanceMap) (e : Email)
    (h : ∃ p ∈ res, e ∈ p.2) :
    [e, if 0 < res.length then
        fmtPct (100 * ((res.countP (fun p => decide (e ∈ p.2)) : Nat) : Rat) /
          (res.length : Rat))
      else "0.00%"] ∈ save_individual_attendee_percentages res := by
  have hlk := attendeeCounts_lk res e
  rw [if_pos h] at hlk
  have hmem := lk_mem _ _ _ hlk
  unfold save_individual_attendee_percentages
  refine List.mem_cons_of_mem _ ?_
  have hmap := List.mem_map_of_mem
    (fun p : Email × Nat => [p.1, fmtPct (indPct p.2 res.length)]) hmem
  rw [← fmtPct_indPct]
  exact hmap

theorem individual_percentage_witness :
    ["a@x.com", if 0 < ([("2024-01-02", ({"a@x.com"} : Finset Email))] : AttendanceMap).length then
        fmtPct (100 * ((([("2024-01-02", ({"a@x.com"} : Finset Email))] : AttendanceMap).countP
            (fun p => decide ("a@x.com" ∈ p.2)) : Nat) : Rat) /
          (([("2024-01-02", ({"a@x.com"} : Finset Email))] : AttendanceMap).length : Rat))
      else "0.00%"] ∈
      save_individual_attendee_percentages [("2024-01-02", {"a@x.com"})] :=
  individual_percentage [("2024-01-02", {"a@x.com"})] "a@x.com" (by decide)

/-! ## C10: every reported percentage lies in [0, 100] -/

theorem card_le_roster (email_list : List Email) (s : Finset Email)
    (h : ∀ e ∈ s, e ∈ email_list) : s.card ≤ email_list.length :=
  Nat.le_trans
    (Finset.card_le_card (fun e he => List.mem_toFinset.2 (h e he)))
    email_list.toFinset_card_le

theorem sum_counts_le :
    ∀ (res : AttendanceMap) (bound : Nat), (∀ p ∈ res, p.2.card ≤ bound) →
    (res.map (fun p => p.2.card)).sum ≤ res.length * bound := by
  intro res bound
  induction res with
  | nil =>
    intro _
    simp
  | cons p t ih =>
    intro h
    rw [List.map_cons, List.sum_cons, List.length_cons]
    have h1 := h p (List.mem_cons_self p t)
    have h2 := ih (fun q hq => h q (List.mem_cons_of_mem p hq))
    calc p.2.card + (t.map (fun p => p.2.card)).sum ≤ bound + t.length * bound :=
          Nat.add_le_add h1 h2
      _ = (t.length + 1) * bound := by ring

theorem perDatePct_range (c n : Nat) (hc : c ≤ n) :
    0 ≤ perDatePct c n ∧ perDatePct c n ≤ 100 := by
  unfold perDatePct
  by_cases h : 0 < n
  · rw [if_pos h]
    have hn : (0 : Rat) < (n : Rat) := by exact_mod_cast h
    have hcn : (c : Rat) ≤ (n : Rat) := by exact_mod_cast hc
    have hd : (c : Rat) / (n : Rat) ≤ 1 := (div_le_one hn).2 hcn
    have hd0 : (0 : Rat) ≤ (c : Rat) / (n : Rat) := by positivity
    constructor
    · positivity
    · nlinarith
  · rw [if_neg h]
    norm_num

theorem overall_range (res : AttendanceMap) (email_list : List Email)
    (hsub : ∀ p ∈ res, p.2.card ≤ email_list.length) :
    ∀ v, overallPercentage res email_list = some v → 0 ≤ v ∧ v ≤ 100 := by
  intro v hv
  unfold overallPercentage at hv
  by_cases h : 0 < email_list.length
  · rw [if_pos h] at hv
    by_cases h2 : res.length * email_list.length = 0
    · rw [if_pos h2] at hv
      cases hv
    · rw [if_neg h2] at hv
      injection hv with hv
      subst hv
      have htot : totalAttendeesCount res ≤ res.length * email_list.length :=
        sum_counts_le res email_list.length hsub
      have hd : (0 : Rat) < ((res.length * email_list.length : Nat) : Rat) := by
        exact_mod_cast Nat.pos_of_ne_zero h2
      have hle : (totalAttendeesCount res : Rat) ≤
          ((res.length * email_list.length : Nat) : Rat) := by exact_mod_cast htot
      have hq : (totalAttendeesCount res : Rat) /
          ((res.length * email_list.length : Nat) : Rat) ≤ 1 := (div_le_one hd).2 hle
      have hq0 : (0 : Rat) ≤ (totalAttendeesCount res : Rat) /
          ((res.length * email_list.length : Nat) : Rat) := by positivity
      constructor
      · positivity
      · nlinarith
  · rw [if_neg h] at hv
    injection hv with hv
    subst hv
    norm_num

/-- Each count in the counts dict equals the number of dates containing
that attendee. -/
theorem attendeeCounts_val (res : AttendanceMap) (pr : Email × Nat)
    (h : pr ∈ attendeeCounts res) :
    pr.2 = res.countP (fun p => decide (pr.1 ∈ p.2)) := by
  obtain ⟨e, c⟩ := pr
  have hlk := mem_lk _ (attendeeCounts_nodup_fst res) _ _ h
  rw [attendeeCounts_lk] at hlk
  by_cases hex : ∃ p ∈ res, e ∈ p.2
  · rw [if_pos hex] at hlk
    injection hlk with hlk
    exact hlk.symm
  · rw [if_neg hex] at hlk
    cases hlk

/-- C10: every percentage value rendered into either output sheet for a
map produced by the pipeline lies in `[0, 100]`: the per-date value
because each attendee set draws from the roster, the overall value
because the count sum is at most `dates * roster size`, and each
individual value because an attendee appears in at most all dates. -/
theorem percentages_in_range (email_list : List Email)
    (folders : List (Date × List XlsxFile)) (leave : LeaveCalendar)
    (res : AttendanceMap) (hres : res = compile_attendee_data email_list folders leave) :
    (∀ p ∈ res, 0 ≤ perDatePct p.2.card email_list.length ∧
      perDatePct p.2.card email_list.length ≤ 100) ∧
    (∀ v, overallPercentage res email_list = some v → 0 ≤ v ∧ v ≤ 100) ∧
    (∀ pr ∈ attendeeCounts res, 0 ≤ indPct pr.2 res.length ∧
      indPct pr.2 res.length ≤ 100) := by
  have hsub : ∀ p ∈ res, p.2.card ≤ email_list.length := by
    intro p hp
    exact card_le_roster email_list p.2
      (fun e he => rosterOnly_compile email_list folders leave p (hres ▸ hp) e he)
  refine ⟨?_, overall_range res email_list hsub, ?_⟩
  · intro p hp
    exact perDatePct_range p.2.card email_list.length (hsub p hp)
  · intro pr hpr
    have hc : pr.2 ≤ res.length := by
      rw [attendeeCounts_val res pr hpr]
      exact List.countP_le_length _
    have := perDatePct_range pr.2 res.length hc
    exact this

theorem percentages_in_range_witness :
    0 ≤ perDatePct ({"a@x.com"} : Finset Email).card (["a@x.com"] : List Email).length ∧
    perDatePct ({"a@x.com"} : Finset Email).card (["a@x.com"] : List Email).length ≤ 100 :=
  (percentages_in_range ["a@x.com"]
    [("2024-01-02", [⟨[some "Email"], [[some "a@x.com"]]⟩])] []
    (compile_attendee_data ["a@x.com"]
      [("2024-01-02", [⟨[some "Email"], [[some "a@x.com"]]⟩])] []) rfl).1
    ("2024-01-02", {"a@x.com"}) (by decide)
